import Mathlib

/-!
Verification development for the NOAA satellite automatic reception system
(`noaa_capture.py`).  The definitions below are a shallow embedding of the
program: pure functions become Lean functions, the external collaborators
(orbital propagator, recorder, resampler, decoder, display transfer) are
passed in as explicit inputs describing their observable behaviour, and the
side effects of the pipeline are recorded as explicit event traces.
Times are modelled as exact integer seconds and elevations as exact integer
degrees (the source works with floating-point values; the claims under
study concern control flow and selection logic, not rounding).
-/

/-- A parsed three-line orbital element group, as built by `get_tle_data`:
the satellite name line and the two element lines, each stripped of
surrounding whitespace. -/
structure TLE where
  name : String
  line1 : String
  line2 : String
deriving DecidableEq

/-- `charsPrefixOf p l` is true when the character list `p` is a prefix of
`l`.  Helper for the substring and filename-pattern tests below. -/
def charsPrefixOf : List Char → List Char → Bool
  | [], _ => true
  | _ :: _, [] => false
  | a :: as, b :: bs => a == b && charsPrefixOf as bs

/-- `charsSuffixOf p l` is true when `p` is a suffix of `l`. -/
def charsSuffixOf (p l : List Char) : Bool :=
  charsPrefixOf p.reverse l.reverse

/-- Python's `str.strip()`: drop leading and trailing whitespace. -/
def pyStrip (s : String) : String :=
  String.mk (((s.data.dropWhile Char.isWhitespace).reverse.dropWhile Char.isWhitespace).reverse)

/-- Python's `needle in hay` substring test, over code points, as used by
`get_tle_data` on each line of the element file. -/
def strContains (hay needle : String) : Bool :=
  (List.range (hay.data.length + 1)).any (fun i => charsPrefixOf needle.data (hay.data.drop i))

/-- `get_tle_data` (noaa_capture.py lines 92-117): scan the element file's
lines; at each index with at least three lines remaining, if the queried
name occurs in that line *as a substring* (`sat_name in lines[i]`), return
the three-line group starting there, stripped.  A missing file or a read
error in the source returns `None`; here the file's contents are the
explicit `lines` input. -/
def get_tle_data (sat : String) : List String → Option TLE
  | a :: b :: c :: rest =>
    if strContains a sat then some ⟨pyStrip a, pyStrip b, pyStrip c⟩
    else get_tle_data sat (b :: c :: rest)
  | _ => none

/-- The fixed-step sampling loop of `calculate_pass_duration`
(noaa_capture.py lines 137-156).  `el i` is the elevation (in degrees) of
the satellite at `aos + 30*i` seconds; `fuel` counts the remaining
samples (started at 40), `i` is the current sample index and `maxEl` the
running maximum (initialised to 0 as in the source).  On the first sample
with negative elevation at a strictly positive index the loop returns the
elapsed seconds `30*i` and the running maximum; if the 40 samples are
exhausted it returns the 600-second ceiling and the running maximum. -/
def passLoop (el : Nat → Int) : Nat → Nat → Int → Int × Int
  | 0, _, maxEl => (600, maxEl)
  | fuel + 1, i, maxEl =>
    let e := el i
    let m := if maxEl < e then e else maxEl
    if e < 0 ∧ 0 < i then (30 * (i : Int), m)
    else passLoop el fuel (i + 1) m

/-- `calculate_pass_duration` (noaa_capture.py lines 119-160): look the
satellite up in the element file; if missing return `(0, 0)`; if the
propagation machinery raises (modelled by the `err` flag) return
`(600, 0)`; otherwise run the 40-sample fixed-step scan from the rise
time. -/
def calculate_pass_duration (lines : List String) (sat : String) (err : Bool)
    (el : Nat → Int) : Int × Int :=
  match get_tle_data sat lines with
  | none => (0, 0)
  | some _ => if err then (600, 0) else passLoop el 40 0 0

/-- Concrete element-file fixture: one well-formed group. -/
def satAName : String := "NOAA 19"

/-- Fixture element lines for `satAName`. -/
def tleL : List String := [satAName, "1 33591U", "2 33591"]

/-- The parsed fixture group. -/
def tleA : TLE := ⟨satAName, "1 33591U", "2 33591"⟩

/-- Running maximum accumulator of the sampling loop, written as a left
fold over the visited sample indices. -/
def foldMaxEl (el : Nat → Int) (m : Int) (l : List Nat) : Int :=
  l.foldl (fun a j => if a < el j then el j else a) m

/-- A stored name used only in counterexample fixtures. -/
def storedName : String := "NOAA 15"

/-- A queried name that is a proper substring of `storedName`. -/
def queryName : String := "NOAA 1"

/-- Element-file fixture whose only group is for `storedName`. -/
def tleCxLines : List String := [storedName, "1 28654U", "2 28654"]

/-- The group `get_tle_data` builds from `tleCxLines`. -/
def tleCx : TLE := ⟨storedName, "1 28654U", "2 28654"⟩

/-- An elevation profile used to witness C3 case (a): positive until
sample 3, negative from sample 3 on. -/
def elW : Nat → Int := fun i => if i < 3 then 10 else -5

/-- Elevation profile whose loss of signal falls at the last sample. -/
def elLate : Nat → Int := fun i => if i < 39 then 0 else -1

/-- One answer of the external propagator's `next_pass`: rise time `tr`,
set time `ts` (seconds) and estimated maximum altitude `altDeg`
(degrees, radians converted by the source via `math.degrees`). -/
structure Candidate where
  tr : Int
  ts : Int
  altDeg : Int
deriving DecidableEq

/-- One entry of the configuration's satellite table. -/
structure SatCfg where
  name : String
  enabled : Bool
  frequency : Int
deriving DecidableEq

/-- One element of the prediction list built by `predict_next_passes`. -/
structure PassPred where
  satellite : String
  aos : Int
  los : Int
  max_elevation : Int
  duration : Int
  frequency : Int
deriving DecidableEq

/-- The dictionary appended for one accepted candidate (noaa_capture.py
lines 202-209): AOS/LOS and maximum elevation are taken from the
propagator's answer, the duration is the first component of
`calculate_pass_duration` (its second component — the refiner's maximum
elevation — is discarded by `duration, _ = ...` at line 200). -/
def mkPassPred (lines : List String) (elA : Int → Int) (name : String) (freq : Int)
    (c : Candidate) : PassPred :=
  { satellite := name
    aos := c.tr
    los := c.ts
    max_elevation := c.altDeg
    duration := (calculate_pass_duration lines name false (fun i => elA (c.tr + 30 * (i : Int)))).1
    frequency := freq }

/-- The per-satellite `while` loop of `predict_next_passes` (noaa_capture.py
lines 190-220): while the cursor is before the horizon end, take the
propagator's next answer (an exhausted answer list models the `ValueError`
break); stop if its rise time is past the horizon end; keep it when its
maximum altitude meets the configured minimum; advance the cursor to one
minute past the answer's set time. -/
def satLoop (lines : List String) (minEl endTime : Int) (elA : Int → Int)
    (name : String) (freq : Int) : Int → List Candidate → List PassPred
  | _, [] => []
  | cursor, c :: rest =>
    if cursor < endTime then
      if endTime < c.tr then []
      else if minEl ≤ c.altDeg then
        mkPassPred lines elA name freq c ::
          satLoop lines minEl endTime elA name freq (c.ts + 60) rest
      else satLoop lines minEl endTime elA name freq (c.ts + 60) rest
    else []

/-- The per-satellite accumulation of `predict_next_passes` (noaa_capture.py
lines 170-223): disabled satellites are skipped, satellites with no
element record are skipped, all surviving candidate passes are
concatenated in configuration order. -/
def gatherPasses (lines : List String) (minEl now endTime : Int)
    (prop : String → List Candidate) (elAt : String → Int → Int) :
    List SatCfg → List PassPred
  | [] => []
  | s :: rest =>
    (if s.enabled then
      match get_tle_data s.name lines with
      | none => []
      | some _ => satLoop lines minEl endTime (elAt s.name) s.name s.frequency now (prop s.name)
     else []) ++ gatherPasses lines minEl now endTime prop elAt rest

/-- Ordering of predictions used by the final `passes.sort(key=...)`. -/
def aosLe (a b : PassPred) : Prop := a.aos ≤ b.aos

instance : DecidableRel aosLe := fun a b => inferInstanceAs (Decidable (a.aos ≤ b.aos))

instance : IsTotal PassPred aosLe := ⟨fun a b => Int.le_total a.aos b.aos⟩

instance : IsTrans PassPred aosLe := ⟨fun _ _ _ h1 h2 => Int.le_trans h1 h2⟩

/-- The final stable sort by AOS time (noaa_capture.py line 226). -/
def sortByAos (l : List PassPred) : List PassPred :=
  List.insertionSort aosLe l

/-- `predict_next_passes` (noaa_capture.py lines 162-227): gather every
enabled satellite's surviving passes and sort them by AOS time.  The
propagator's successive `next_pass` answers per satellite are the explicit
input `prop`; `elAt` gives each satellite's elevation at an absolute time
for the duration refiner. -/
def predict_next_passes (lines : List String) (sats : List SatCfg)
    (minEl now endTime : Int) (prop : String → List Candidate)
    (elAt : String → Int → Int) : List PassPred :=
  sortByAos (gatherPasses lines minEl now endTime prop elAt sats)

/-- Configuration fixture: one enabled satellite. -/
def satA : SatCfg := ⟨satAName, true, 137⟩

/-- Propagator answer fixture: one pass rising at 0, setting at 300,
with an estimated maximum altitude of 45 degrees. -/
def candA : Candidate := ⟨0, 300, 45⟩

/-- Propagator fixture returning `candA` once for every satellite. -/
def propA : String → List Candidate := fun _ => [candA]

/-- Elevation fixture: the refiner observes a constant 10 degrees, so its
sampled maximum elevation is 10 — different from the propagator's 45. -/
def elATen : String → Int → Int := fun _ _ => 10

/-- The prediction produced from `candA`: elevation never goes negative,
so the refined duration is the 600-second ceiling. -/
def passA : PassPred := ⟨satAName, 0, 300, 45, 600, 137⟩

/-- The decoder's visualization variants, in the fixed order in which
`process_audio` attempts them (noaa_capture.py lines 341-412). -/
inductive Kind
  | basic
  | msa
  | msaPrecip
  | hvct
  | therm
deriving DecidableEq

/-- The declared attempt order: basic first, then the enhancement modes. -/
def kindOrder : List Kind := [Kind.basic, Kind.msa, Kind.msaPrecip, Kind.hvct, Kind.therm]

/-- The filename suffix each variant's output adds to the artifact base
name. -/
def kindSuffix : Kind → String
  | Kind.basic => ".png"
  | Kind.msa => "_MSA.png"
  | Kind.msaPrecip => "_MSA_PRECIP.png"
  | Kind.hvct => "_HVCT.png"
  | Kind.therm => "_THERM.png"

/-- The output path of a variant for a given artifact base name. -/
def outputName (base : String) (k : Kind) : String := base ++ kindSuffix k

/-- The `processing` section of the configuration: which variants to
generate and whether the raw audio artifact is retained. -/
structure ProcConfig where
  generate_basic : Bool
  generate_msa : Bool
  generate_msa_precip : Bool
  generate_hvct : Bool
  generate_therm : Bool
  save_raw_audio : Bool
deriving DecidableEq

/-- Whether a variant's block runs, per the `config.get(..., True)`
guards. -/
def kindEnabled (cfg : ProcConfig) : Kind → Bool
  | Kind.basic => cfg.generate_basic
  | Kind.msa => cfg.generate_msa
  | Kind.msaPrecip => cfg.generate_msa_precip
  | Kind.hvct => cfg.generate_hvct
  | Kind.therm => cfg.generate_therm

/-- The `.png` extension of every decoder output. -/
def pngExt : String := ".png"

/-- The test `glob(image_dir, base + "*.png")` applies to a filename:
it must start with the base, end with `.png`, and be long enough that the
two ends do not overlap (so some, possibly empty, middle exists). -/
def globMatch (base f : String) : Bool :=
  charsPrefixOf base.data f.data && charsSuffixOf pngExt.data f.data &&
    decide (base.data.length + 4 ≤ f.data.length)

/-- Python's `<=` on strings: lexicographic comparison by code point. -/
def charsLe : List Char → List Char → Bool
  | [], _ => true
  | _ :: _, [] => false
  | a :: as, b :: bs =>
    if a.val < b.val then true
    else if b.val < a.val then false
    else charsLe as bs

/-- String comparison used by `sorted(...)`. -/
def strLe (a b : String) : Bool := charsLe a.data b.data

/-- `sorted(l)[0]`: the least string of a non-empty list. -/
def minString (x : String) (l : List String) : String :=
  l.foldl (fun a b => if strLe a b then a else b) x

/-- The output files written during one pipeline run: one per enabled
variant whose decoder invocation exited successfully, in attempt order. -/
def createdImages (cfg : ProcConfig) (dk : Kind → Bool) (base : String) : List String :=
  (kindOrder.filter (fun k => kindEnabled cfg k && dk k)).map (fun k => outputName base k)

/-- Modelled from the spec's words (§4.5 forwarding selection): the first
kind in the fixed declared order whose variant succeeded.  This is the
spec-side selection rule, to be compared with the code's
`forwardedImage`. -/
def specEarliestSucceeded (cfg : ProcConfig) (dk : Kind → Bool) : Option Kind :=
  (kindOrder.filter (fun k => kindEnabled cfg k && dk k)).head?

/-- The forwarding choice of `process_audio` (noaa_capture.py lines
414-421): `first_image` is only ever assigned inside the *basic* block
(line 352), so it is the basic output when the basic decode ran and
succeeded, and `None` otherwise; if it is `None` the code scans the image
directory for `base*.png` files — the files already present (`pre`) plus
the ones created by this run — and forwards the lexicographically
smallest, or nothing when the scan is empty. -/
def forwardedImage (cfg : ProcConfig) (dk : Kind → Bool) (base : String)
    (pre : List String) : Option String :=
  if kindEnabled cfg Kind.basic && dk Kind.basic then some (outputName base Kind.basic)
  else
    match (pre ++ createdImages cfg dk base).filter (fun f => globMatch base f) with
    | [] => none
    | x :: xs => some (minString x xs)

/-- Observable events of one `process_audio` run, in order. -/
inductive PEvent
  | resample (ok : Bool)
  | decode (k : Kind) (ok : Bool)
  | forward (path : String)
  | removeRaw
  | removeResampled
deriving DecidableEq

/-- Event trace of `process_audio` (noaa_capture.py lines 314-434):
resample first — a resampler failure returns immediately (line 335),
before any decode, forward or cleanup; otherwise run one decoder
invocation per enabled variant in the declared order (each failure
isolated), forward the chosen image if any, remove the raw artifact only
when `save_raw_audio` is false, and finally remove the resampled file. -/
def process_audio (cfg : ProcConfig) (soxOk : Bool) (dk : Kind → Bool)
    (base : String) (pre : List String) : List PEvent :=
  if soxOk = false then [PEvent.resample false]
  else
    PEvent.resample true ::
      ((kindOrder.filter (fun k => kindEnabled cfg k)).map (fun k => PEvent.decode k (dk k)) ++
        (match forwardedImage cfg dk base pre with
          | some p => [PEvent.forward p]
          | none => []) ++
        (if cfg.save_raw_audio then [] else [PEvent.removeRaw]) ++
        [PEvent.removeResampled])

/-- A configuration with every variant enabled and the raw artifact
retained. -/
def cfgAll : ProcConfig := ⟨true, true, true, true, true, true⟩

/-- A decode-success fixture: every variant succeeds. -/
def dkAll : Kind → Bool := fun _ => true

/-- A base name fixture for pipeline runs. -/
def baseX : String := "NOAA_19_20240101_120000"

/-- Decode-success fixture for the C1 counterexample: the basic decode
fails, the MSA and HVCT decodes succeed. -/
def dkCx : Kind → Bool
  | Kind.msa => true
  | Kind.hvct => true
  | _ => false

/-- Decode-success fixture for the claim's own scenario: basic fails,
the first and second enhancement modes (MSA, MSA-PRECIP) succeed. -/
def dkScen : Kind → Bool
  | Kind.msa => true
  | Kind.msaPrecip => true
  | _ => false

/-- Observable events of one capture session. -/
inductive CaptureEvent
  | recorderRun
  | validationFailed
  | pipelineRun
deriving DecidableEq

/-- The artifact validation of `capture_pass` (noaa_capture.py lines
288-294): after the recorder is stopped, the pipeline is invoked only if
the audio file exists (`ex`) and has non-zero size; otherwise an error is
reported and the pipeline is not invoked. -/
def capture_pass (ex : Bool) (size : Nat) : List CaptureEvent :=
  CaptureEvent.recorderRun ::
    (if ex && decide (0 < size) then [CaptureEvent.pipelineRun]
     else [CaptureEvent.validationFailed])

/-- The environment's outcome of one scheduler iteration: a pass was
captured, no pass was found, an unhandled failure was raised, or the user
interrupted the loop. -/
inductive IterResult
  | captured
  | idle
  | failed
  | interrupted
deriving DecidableEq

/-- Observable events of the scheduler loop: a capture, the 6-hour idle
sleep, the error backoff sleep (seconds), or loop exit. -/
inductive SchedEvent
  | captureRun
  | idleSleep (secs : Nat)
  | errorBackoff (secs : Nat)
  | stopped
deriving DecidableEq

/-- The `while True` scheduler loop of `run_scheduler` (noaa_capture.py
lines 453-483), as a trace over the successive iteration outcomes: a
found pass is captured; no pass sleeps 6 hours (21600 s); an unhandled
failure is caught at the loop boundary, logged, and followed by one
300-second (5-minute) backoff sleep before the loop continues; only a
`KeyboardInterrupt` exits the loop. -/
def run_scheduler : List IterResult → List SchedEvent
  | [] => []
  | IterResult.captured :: rest => SchedEvent.captureRun :: run_scheduler rest
  | IterResult.idle :: rest => SchedEvent.idleSleep 21600 :: run_scheduler rest
  | IterResult.failed :: rest => SchedEvent.errorBackoff 300 :: run_scheduler rest
  | IterResult.interrupted :: _ => [SchedEvent.stopped]

example : get_tle_data satAName tleL = some tleA := by decide

example : passLoop (fun i => if i < 3 then 10 else -5) 40 0 0 = (90, 10) := by decide

lemma foldMaxEl_nil (el : Nat → Int) (m : Int) : foldMaxEl el m [] = m := rfl

lemma foldMaxEl_cons (el : Nat → Int) (m : Int) (j : Nat) (l : List Nat) :
    foldMaxEl el m (j :: l) = foldMaxEl el (if m < el j then el j else m) l := rfl

lemma le_foldMaxEl (el : Nat → Int) :
    ∀ (l : List Nat) (m : Int), m ≤ foldMaxEl el m l := by
  intro l
  induction l with
  | nil => intro m; simp [foldMaxEl_nil]
  | cons j t ih =>
    intro m
    rw [foldMaxEl_cons]
    refine le_trans ?_ (ih _)
    split <;> omega

lemma mem_le_foldMaxEl (el : Nat → Int) :
    ∀ (l : List Nat) (m : Int) (j : Nat), j ∈ l → el j ≤ foldMaxEl el m l := by
  intro l
  induction l with
  | nil => intro m j h; cases h
  | cons a t ih =>
    intro m j h
    rw [foldMaxEl_cons]
    rcases List.mem_cons.mp h with h | h
    · subst h
      refine le_trans ?_ (le_foldMaxEl el t _)
      split <;> omega
    · exact ih _ j h

lemma foldMaxEl_attained (el : Nat → Int) :
    ∀ (l : List Nat) (m : Int),
      foldMaxEl el m l = m ∨ ∃ j ∈ l, foldMaxEl el m l = el j := by
  intro l
  induction l with
  | nil => intro m; left; rfl
  | cons a t ih =>
    intro m
    rw [foldMaxEl_cons]
    rcases ih (if m < el a then el a else m) with h | ⟨j, hj, h⟩
    · by_cases hma : m < el a
      · right
        exact ⟨a, List.mem_cons_self a t, by rw [h, if_pos hma]⟩
      · left
        rw [h, if_neg hma]
    · right
      exact ⟨j, List.mem_cons_of_mem a hj, h⟩

/-- Possible first components of the sampling loop: either the 600-second
ceiling, or `30*k` for a sample index `k` with `i ≤ k`, `0 < k` and
`k < i + fuel`. -/
lemma passLoop_fst_cases (el : Nat → Int) :
    ∀ (fuel i : Nat) (m : Int),
      (passLoop el fuel i m).1 = 600 ∨
      ∃ k : Nat, i ≤ k ∧ 0 < k ∧ k < i + fuel ∧ (passLoop el fuel i m).1 = 30 * (k : Int) := by
  intro fuel
  induction fuel with
  | zero => intro i m; left; rfl
  | succ fuel ih =>
    intro i m
    rw [passLoop]
    split
    · right
      rename_i hcond
      exact ⟨i, le_refl i, hcond.2, by omega, rfl⟩
    · rcases ih (i + 1) (if m < el i then el i else m) with h | ⟨k, h1, h2, h3, h4⟩
      · left; exact h
      · right; exact ⟨k, by omega, h2, by omega, h4⟩

/-- If `k` is a positive sample index within the window at which the
elevation is negative, and no earlier positive index in the window has a
negative elevation, then the loop stops exactly at `k` and returns the
elapsed time `30*k`. -/
lemma passLoop_los (el : Nat → Int) :
    ∀ (fuel i : Nat) (m : Int) (k : Nat), i ≤ k → k < i + fuel → 0 < k → el k < 0 →
      (∀ j, i ≤ j → j < k → 0 < j → 0 ≤ el j) →
      (passLoop el fuel i m).1 = 30 * (k : Int) := by
  intro fuel
  induction fuel with
  | zero => intro i m k h1 h2; omega
  | succ fuel ih =>
    intro i m k h1 h2 hk hneg hfront
    rw [passLoop]
    by_cases hik : i = k
    · subst hik
      rw [if_pos ⟨hneg, hk⟩]
    · have hlt : i < k := by omega
      have hcond : ¬(el i < 0 ∧ 0 < i) := by
        rintro ⟨hei, hi0⟩
        have := hfront i (le_refl i) hlt hi0
        omega
      rw [if_neg hcond]
      exact ih (i + 1) _ k (by omega) (by omega) hk hneg
        (fun j hj1 hj2 hj3 => hfront j (by omega) hj2 hj3)

/-- If no positive sample index in the window has a negative elevation,
the loop exhausts its samples and returns the 600-second ceiling together
with the running maximum over the window. -/
lemma passLoop_noLos (el : Nat → Int) :
    ∀ (fuel i : Nat) (m : Int),
      (∀ j, i ≤ j → j < i + fuel → 0 < j → 0 ≤ el j) →
      passLoop el fuel i m = (600, foldMaxEl el m (List.range' i fuel)) := by
  intro fuel
  induction fuel with
  | zero => intro i m _; rfl
  | succ fuel ih =>
    intro i m hfront
    rw [passLoop]
    have hcond : ¬(el i < 0 ∧ 0 < i) := by
      rintro ⟨hei, hi0⟩
      have := hfront i (le_refl i) (by omega) hi0
      omega
    rw [if_neg hcond, List.range'_succ, foldMaxEl_cons]
    exact ih (i + 1) _ (fun j hj1 hj2 hj3 => hfront j (by omega) (by omega) hj3)

/-- Value cases for the duration returned by `calculate_pass_duration`:
`0` when the element record is missing, else `600`, else `30*k` for some
sample index `1 ≤ k ≤ 39`. -/
lemma calc_fst_cases (lines : List String) (sat : String) (err : Bool) (el : Nat → Int) :
    (calculate_pass_duration lines sat err el).1 = 0 ∨
    (calculate_pass_duration lines sat err el).1 = 600 ∨
    ∃ k : Nat, 1 ≤ k ∧ k ≤ 39 ∧ (calculate_pass_duration lines sat err el).1 = 30 * (k : Int) := by
  unfold calculate_pass_duration
  cases get_tle_data sat lines with
  | none => left; rfl
  | some t =>
    right
    cases err with
    | true => left; rfl
    | false =>
      rcases passLoop_fst_cases el 40 0 0 with h | ⟨k, _, h2, h3, h4⟩
      · left; simpa using h
      · right; exact ⟨k, by omega, by omega, by simpa using h4⟩

/-- The refined duration is never negative. -/
lemma calc_fst_nonneg (lines : List String) (sat : String) (err : Bool) (el : Nat → Int) :
    0 ≤ (calculate_pass_duration lines sat err el).1 := by
  rcases calc_fst_cases lines sat err el with h | h | ⟨k, _, _, h⟩ <;> rw [h] <;> positivity

/-- C2 counterexample: querying the orbital-element lookup for
`"NOAA 1"`, against a file whose only record is named `"NOAA 15"`,
returns that record even though the stored name differs from the queried
name — the lookup matches by substring, not exactly, refuting the claim
that a record is returned only on an exact name match. -/
theorem C2_counterexample :
    get_tle_data queryName tleCxLines = some tleCx ∧ tleCx.name ≠ queryName := by
  decide

/-- C2 (amended): the orbital-element lookup returns a record exactly when
some line of the file with at least two lines after it *contains* the
queried name as a substring; the record returned is built from the first
such line and the two lines following it, each stripped of surrounding
whitespace.  (The lookup is a substring match, not an exact-name match.) -/
theorem C2_amended (lines : List String) (sat : String) (t : TLE)
    (h : get_tle_data sat lines = some t) :
    ∃ pre a b c rest, lines = pre ++ a :: b :: c :: rest ∧
      (∀ x ∈ pre, strContains x sat = false) ∧
      strContains a sat = true ∧ t = ⟨pyStrip a, pyStrip b, pyStrip c⟩ := by
  induction lines with
  | nil => simp [get_tle_data] at h
  | cons a tail ih =>
    rcases tail with _ | ⟨b, tail2⟩
    · simp [get_tle_data] at h
    rcases tail2 with _ | ⟨c, rest⟩
    · simp [get_tle_data] at h
    rw [get_tle_data] at h
    by_cases hc : strContains a sat = true
    · rw [if_pos hc] at h
      refine ⟨[], a, b, c, rest, rfl, by simp, hc, ?_⟩
      exact (Option.some.injEq _ _ ▸ h).symm
    · rw [if_neg hc] at h
      obtain ⟨pre, a', b', c', rest', heq, hpre, hca, ht⟩ := ih h
      refine ⟨a :: pre, a', b', c', rest', by rw [List.cons_append, heq], ?_, hca, ht⟩
      intro x hx
      rcases List.mem_cons.mp hx with hx | hx
      · subst hx
        exact Bool.not_eq_true _ ▸ (by simpa using hc)
      · exact hpre x hx

/-- Witness for C2 (amended), at the counterexample fixture. -/
theorem C2_amended_witness :
    ∃ pre a b c rest, tleCxLines = pre ++ a :: b :: c :: rest ∧
      (∀ x ∈ pre, strContains x queryName = false) ∧
      strContains a queryName = true ∧ tleCx = ⟨pyStrip a, pyStrip b, pyStrip c⟩ :=
  C2_amended tleCxLines queryName tleCx (by decide)

/-- C3: with an available element record, the duration refiner samples
elevation at the rise time and every 30 seconds thereafter for up to 40
samples.  (a) If `k` (with `1 ≤ k ≤ 39`) is the first sample index after
the first sample whose elevation is negative, the returned duration is the
elapsed time `30*k` seconds between rise and that sample.  (b) If no
sample in the window is negative, the result is exactly the 600-second
ceiling together with the maximum elevation observed over the samples. -/
theorem C3 (lines : List String) (sat : String) (t : TLE) (el : Nat → Int)
    (ht : get_tle_data sat lines = some t) :
    (∀ k : Nat, 1 ≤ k → k ≤ 39 → el k < 0 → (∀ j, 1 ≤ j → j < k → 0 ≤ el j) →
      (calculate_pass_duration lines sat false el).1 = 30 * (k : Int)) ∧
    ((∀ i, i < 40 → 0 ≤ el i) →
      (calculate_pass_duration lines sat false el).1 = 600 ∧
      (∀ i, i < 40 → el i ≤ (calculate_pass_duration lines sat false el).2) ∧
      (∃ i, i < 40 ∧ el i = (calculate_pass_duration lines sat false el).2)) := by
  have hcalc : calculate_pass_duration lines sat false el = passLoop el 40 0 0 := by
    unfold calculate_pass_duration
    rw [ht]
    simp
  constructor
  · intro k h1 h2 hneg hfront
    rw [hcalc]
    exact passLoop_los el 40 0 0 k (by omega) (by omega) (by omega) hneg
      (fun j _ hj2 hj3 => hfront j (by omega) hj2)
  · intro hpos
    have hp := passLoop_noLos el 40 0 0 (fun j _ hj2 _ => hpos j (by omega))
    rw [hcalc, hp]
    have hmem : ∀ i : Nat, i < 40 → i ∈ List.range' 0 40 := by
      intro i hi
      exact List.mem_range'.mpr ⟨i, hi, by omega⟩
    refine ⟨rfl, ?_, ?_⟩
    · intro i hi
      exact mem_le_foldMaxEl el (List.range' 0 40) 0 i (hmem i hi)
    · rcases foldMaxEl_attained el (List.range' 0 40) 0 with h0 | ⟨j, hj, hja⟩
      · refine ⟨0, by omega, ?_⟩
        have h1 := hpos 0 (by omega)
        have h2 := mem_le_foldMaxEl el (List.range' 0 40) 0 0 (hmem 0 (by omega))
        omega
      · obtain ⟨i, hi, hieq⟩ := List.mem_range'.mp hj
        refine ⟨j, by omega, hja.symm⟩

/-- Witness for C3: at the fixture record and profile `elW`, loss of
signal is detected at sample 3 and the returned duration is 90 seconds. -/
theorem C3_witness : (calculate_pass_duration tleL satAName false elW).1 = 90 := by
  have h := (C3 tleL satAName tleA elW (by decide)).1 3 (by decide) (by decide) (by decide)
    (fun j h1 h2 => by interval_cases j <;> decide)
  simpa using h

/-- C10: the duration returned by the refiner is always `0` (missing
element record), `600` (no loss of signal found, or an internal error), or
`30*k` seconds for some sample index `1 ≤ k ≤ 39`; in particular a
detected loss of signal can yield 1170 seconds, which exceeds the
600-second ceiling value. -/
theorem C10 :
    (∀ (lines : List String) (sat : String) (err : Bool) (el : Nat → Int),
      (calculate_pass_duration lines sat err el).1 = 0 ∨
      (calculate_pass_duration lines sat err el).1 = 600 ∨
      ∃ k : Nat, 1 ≤ k ∧ k ≤ 39 ∧
        (calculate_pass_duration lines sat err el).1 = 30 * (k : Int)) ∧
    ((calculate_pass_duration tleL satAName false elLate).1 = 1170 ∧ (600 : Int) < 1170) := by
  constructor
  · intro lines sat err el
    exact calc_fst_cases lines sat err el
  · constructor
    · decide
    · decide

/-- Every pass produced by the per-satellite loop comes from one of the
propagator's candidates via `mkPassPred`. -/
lemma mem_satLoop {lines : List String} {minEl endTime : Int} {elA : Int → Int}
    {name : String} {freq : Int} :
    ∀ {cands : List Candidate} {cursor : Int} {p : PassPred},
      p ∈ satLoop lines minEl endTime elA name freq cursor cands →
      ∃ c ∈ cands, p = mkPassPred lines elA name freq c := by
  intro cands
  induction cands with
  | nil => intro cursor p hp; simp [satLoop] at hp
  | cons c rest ih =>
    intro cursor p hp
    rw [satLoop] at hp
    split at hp
    · split at hp
      · simp at hp
      · split at hp
        · rcases List.mem_cons.mp hp with hp | hp
          · exact ⟨c, List.mem_cons_self c rest, hp⟩
          · obtain ⟨c', hc', he⟩ := ih hp
            exact ⟨c', List.mem_cons_of_mem c hc', he⟩
        · obtain ⟨c', hc', he⟩ := ih hp
          exact ⟨c', List.mem_cons_of_mem c hc', he⟩
    · simp at hp

/-- Every gathered pass comes from an enabled satellite's loop. -/
lemma mem_gatherPasses {lines : List String} {minEl now endTime : Int}
    {prop : String → List Candidate} {elAt : String → Int → Int} :
    ∀ {sats : List SatCfg} {p : PassPred},
      p ∈ gatherPasses lines minEl now endTime prop elAt sats →
      ∃ s ∈ sats, s.enabled = true ∧
        p ∈ satLoop lines minEl endTime (elAt s.name) s.name s.frequency now (prop s.name) := by
  intro sats
  induction sats with
  | nil => intro p hp; simp [gatherPasses] at hp
  | cons s rest ih =>
    intro p hp
    rw [gatherPasses] at hp
    rcases List.mem_append.mp hp with hp | hp
    · split at hp
      · split at hp
        · simp at hp
        · exact ⟨s, List.mem_cons_self s rest, by assumption, hp⟩
      · simp at hp
    · obtain ⟨s', hs', he, hm⟩ := ih hp
      exact ⟨s', List.mem_cons_of_mem s hs', he, hm⟩

/-- Membership in the prediction list is membership in the gathered list. -/
lemma mem_predict {lines : List String} {sats : List SatCfg}
    {minEl now endTime : Int} {prop : String → List Candidate}
    {elAt : String → Int → Int} {p : PassPred} :
    p ∈ predict_next_passes lines sats minEl now endTime prop elAt ↔
      p ∈ gatherPasses lines minEl now endTime prop elAt sats := by
  unfold predict_next_passes sortByAos
  exact List.mem_insertionSort aosLe

set_option maxRecDepth 10000 in
/-- C5 counterexample: with the fixture inputs the recorded
`max_elevation` is the propagator's estimate 45, while the refiner's
directly sampled maximum elevation is 10 — the recorded value is *not*
the refiner's value, refuting the claim (`duration, _ = ...` at line 200
discards the refiner's maximum elevation). -/
theorem C5_counterexample :
    predict_next_passes tleL [satA] 20 0 10000 propA elATen = [passA] ∧
    passA.max_elevation = 45 ∧
    (calculate_pass_duration tleL satAName false
      (fun i => elATen satAName (candA.tr + 30 * (i : Int)))).2 = 10 ∧
    (45 : Int) ≠ 10 :=
  ⟨by decide, by decide, by decide, by decide⟩

/-- C5 (amended): every recorded prediction takes its `max_elevation`
directly from the external propagator's candidate (and its AOS/LOS times
likewise), while its `duration` — and only its duration — comes from the
Refiner's fixed-step sampling; the Refiner's sampled maximum elevation is
discarded. -/
theorem C5_amended (lines : List String) (sats : List SatCfg) (minEl now endTime : Int)
    (prop : String → List Candidate) (elAt : String → Int → Int) (p : PassPred)
    (hp : p ∈ predict_next_passes lines sats minEl now endTime prop elAt) :
    ∃ s ∈ sats, s.enabled = true ∧ p.satellite = s.name ∧ p.frequency = s.frequency ∧
      ∃ c ∈ prop s.name,
        p.aos = c.tr ∧ p.los = c.ts ∧ p.max_elevation = c.altDeg ∧
        p.duration = (calculate_pass_duration lines s.name false
          (fun i => elAt s.name (c.tr + 30 * (i : Int)))).1 := by
  obtain ⟨s, hs, he, hm⟩ := mem_gatherPasses (mem_predict.mp hp)
  obtain ⟨c, hcm, hpe⟩ := mem_satLoop hm
  subst hpe
  exact ⟨s, hs, he, rfl, rfl, c, hcm, rfl, rfl, rfl, rfl⟩

/-- Witness for C5 (amended) at the fixture inputs. -/
theorem C5_amended_witness :
    ∃ s ∈ [satA], s.enabled = true ∧ passA.satellite = s.name ∧
      passA.frequency = s.frequency ∧
      ∃ c ∈ propA s.name,
        passA.aos = c.tr ∧ passA.los = c.ts ∧ passA.max_elevation = c.altDeg ∧
        passA.duration = (calculate_pass_duration tleL s.name false
          (fun i => elATen s.name (c.tr + 30 * (i : Int)))).1 :=
  C5_amended tleL [satA] 20 0 10000 propA elATen passA (by decide)

/-- C7: the prediction list is always sorted non-decreasing by AOS time,
and — provided every candidate the external propagator hands back has its
rise before its set and an altitude within [0, 90] degrees, the physical
contract of the propagator — every recorded prediction has `aos < los`,
a non-negative duration, and a maximum elevation within [0, 90]. -/
theorem C7 (lines : List String) (sats : List SatCfg) (minEl now endTime : Int)
    (prop : String → List Candidate) (elAt : String → Int → Int)
    (hc : ∀ s c, c ∈ prop s → c.tr < c.ts ∧ 0 ≤ c.altDeg ∧ c.altDeg ≤ 90) :
    List.Sorted aosLe (predict_next_passes lines sats minEl now endTime prop elAt) ∧
    ∀ p ∈ predict_next_passes lines sats minEl now endTime prop elAt,
      p.aos < p.los ∧ 0 ≤ p.duration ∧ 0 ≤ p.max_elevation ∧ p.max_elevation ≤ 90 := by
  constructor
  · exact List.sorted_insertionSort aosLe _
  · intro p hp
    obtain ⟨s, hs, he, hm⟩ := mem_gatherPasses (mem_predict.mp hp)
    obtain ⟨c, hcm, hpe⟩ := mem_satLoop hm
    obtain ⟨h1, h2, h3⟩ := hc s.name c hcm
    subst hpe
    exact ⟨h1, calc_fst_nonneg _ _ _ _, h2, h3⟩

/-- Witness for C7 at the fixture inputs. -/
theorem C7_witness :
    List.Sorted aosLe (predict_next_passes tleL [satA] 20 0 10000 propA elATen) ∧
    passA.aos < passA.los ∧ 0 ≤ passA.duration ∧
    0 ≤ passA.max_elevation ∧ passA.max_elevation ≤ 90 := by
  have hc : ∀ s c, c ∈ propA s → c.tr < c.ts ∧ 0 ≤ c.altDeg ∧ c.altDeg ≤ 90 := by
    intro s c hcm
    simp [propA] at hcm
    subst hcm
    exact ⟨by decide, by decide, by decide⟩
  have h := C7 tleL [satA] 20 0 10000 propA elATen hc
  exact ⟨h.1, h.2 passA (by decide)⟩

lemma charsPrefixOf_refl_append : ∀ l r : List Char, charsPrefixOf l (l ++ r) = true := by
  intro l r
  induction l with
  | nil => rfl
  | cons a as ih => simp [charsPrefixOf, ih]

lemma charsPrefixOf_extend : ∀ p u v : List Char,
    charsPrefixOf p u = true → charsPrefixOf p (u ++ v) = true := by
  intro p
  induction p with
  | nil => intro u v _; rfl
  | cons a as ih =>
    intro u v h
    cases u with
    | nil => simp [charsPrefixOf] at h
    | cons b bs =>
      rw [charsPrefixOf, Bool.and_eq_true] at h
      obtain ⟨h1, h2⟩ := h
      rw [List.cons_append, charsPrefixOf, Bool.and_eq_true]
      exact ⟨h1, ih bs v h2⟩

lemma charsSuffixOf_extend (p l r : List Char) (h : charsSuffixOf p r = true) :
    charsSuffixOf p (l ++ r) = true := by
  unfold charsSuffixOf at h ⊢
  rw [List.reverse_append]
  exact charsPrefixOf_extend _ _ _ h

/-- Every output file of a run matches the filesystem scan's pattern. -/
lemma globMatch_outputName (base : String) (k : Kind) :
    globMatch base (outputName base k) = true := by
  unfold globMatch outputName
  rw [String.data_append]
  have hsfx : charsSuffixOf pngExt.data (kindSuffix k).data = true := by
    cases k <;> decide
  have hlen : 4 ≤ (kindSuffix k).data.length := by
    cases k <;> decide
  rw [Bool.and_eq_true, Bool.and_eq_true]
  refine ⟨⟨?_, ?_⟩, ?_⟩
  · exact charsPrefixOf_refl_append _ _
  · exact charsSuffixOf_extend _ _ _ hsfx
  · rw [decide_eq_true_eq, List.length_append]
    omega

/-- C1 counterexample: with every variant enabled, the basic decode
failed and the MSA and HVCT decodes succeeded, the earliest-priority
succeeded kind in the declared order is MSA, yet the file forwarded to
the display is HVCT's — the fallback scan picks the lexicographically
smallest file and `_HVCT.png` sorts before `_MSA.png`.  The forwarded
image is therefore not the variant of the earliest-priority succeeded
kind, refuting the claim. -/
theorem C1_counterexample :
    specEarliestSucceeded cfgAll dkCx = some Kind.msa ∧
    forwardedImage cfgAll dkCx baseX [] = some (outputName baseX Kind.hvct) ∧
    outputName baseX Kind.hvct ≠ outputName baseX Kind.msa := by
  decide

/-- C1 (amended): when the basic variant is enabled and its decode
succeeds, its file is the one forwarded (the in-memory bookkeeping
records only the basic variant); in every other case the pipeline falls
back to the filesystem scan and forwards the lexicographically smallest
matching file — over a directory holding no other matching files, that is
the lexicographically smallest of the *succeeded* variants' outputs (not
the earliest-priority succeeded one), and nothing is forwarded when no
variant succeeded. -/
theorem C1_amended (cfg : ProcConfig) (dk : Kind → Bool) (base : String)
    (pre : List String) (hpre : ∀ f ∈ pre, globMatch base f = false) :
    ((kindEnabled cfg Kind.basic && dk Kind.basic) = true →
      forwardedImage cfg dk base pre = some (outputName base Kind.basic)) ∧
    ((kindEnabled cfg Kind.basic && dk Kind.basic) = false →
      forwardedImage cfg dk base pre =
        match createdImages cfg dk base with
        | [] => none
        | x :: xs => some (minString x xs)) := by
  have h1 : pre.filter (fun f => globMatch base f) = [] :=
    List.filter_eq_nil_iff.mpr (fun a ha => by simp [hpre a ha])
  have h2 : (createdImages cfg dk base).filter (fun f => globMatch base f) =
      createdImages cfg dk base := by
    refine List.filter_eq_self.mpr ?_
    intro a ha
    obtain ⟨k, _, hk⟩ := List.mem_map.mp ha
    rw [← hk]
    simp [globMatch_outputName base k]
  have hfilter : (pre ++ createdImages cfg dk base).filter (fun f => globMatch base f) =
      createdImages cfg dk base := by
    rw [List.filter_append, h1, h2, List.nil_append]
  constructor
  · intro hb
    unfold forwardedImage
    rw [if_pos hb]
  · intro hb
    unfold forwardedImage
    rw [if_neg (by simp [hb]), hfilter]

/-- Witness for C1 (amended), at the claim's scenario: basic failed and
MSA and MSA-PRECIP succeeded, so the fallback forwards `_MSA.png`, the
lexicographically smallest of the two outputs. -/
theorem C1_amended_witness :
    forwardedImage cfgAll dkScen baseX [] = some (outputName baseX Kind.msa) := by
  have h := (C1_amended cfgAll dkScen baseX []
    (fun f hf => absurd hf (List.not_mem_nil f))).2 (by decide)
  rw [h]
  decide

/-- C4 counterexample: when the resampler fails, `process_audio` returns
at line 335, before the cleanup code — no removal of the resampled
intermediate file occurs, refuting the claim that it is removed
regardless of outcome. -/
theorem C4_counterexample :
    PEvent.removeResampled ∉ process_audio cfgAll false dkAll baseX [] := by
  decide

/-- C4 (amended): the resampled intermediate file is removed whenever the
resampling step itself succeeded — regardless of decoder or forwarding
outcomes — but when resampling fails the early return skips the cleanup
and no removal is attempted. -/
theorem C4_amended (cfg : ProcConfig) (dk : Kind → Bool) (base : String)
    (pre : List String) :
    PEvent.removeResampled ∈ process_audio cfg true dk base pre ∧
    PEvent.removeResampled ∉ process_audio cfg false dk base pre := by
  constructor
  · unfold process_audio
    simp
  · unfold process_audio
    simp

/-- Witness for C4 (amended) at concrete inputs. -/
theorem C4_amended_witness :
    PEvent.removeResampled ∈ process_audio cfgAll true dkAll baseX [] ∧
    PEvent.removeResampled ∉ process_audio cfgAll false dkAll baseX [] :=
  C4_amended cfgAll dkAll baseX []

/-- C9: when the resampling step fails, the pipeline's trace contains no
decoder invocation and no forwarding attempt — the run stops at the
failed resample. -/
theorem C9 (cfg : ProcConfig) (dk : Kind → Bool) (base : String) (pre : List String) :
    (∀ (k : Kind) (ok : Bool), PEvent.decode k ok ∉ process_audio cfg false dk base pre) ∧
    (∀ p : String, PEvent.forward p ∉ process_audio cfg false dk base pre) := by
  have h : process_audio cfg false dk base pre = [PEvent.resample false] := rfl
  constructor
  · intro k ok hmem
    rw [h] at hmem
    simp at hmem
  · intro p hmem
    rw [h] at hmem
    simp at hmem

/-- Witness for C9 at concrete inputs. -/
theorem C9_witness :
    PEvent.decode Kind.basic true ∉ process_audio cfgAll false dkAll baseX [] ∧
    PEvent.forward baseX ∉ process_audio cfgAll false dkAll baseX [] :=
  ⟨(C9 cfgAll dkAll baseX []).1 Kind.basic true, (C9 cfgAll dkAll baseX []).2 baseX⟩

/-- C8: the image pipeline is invoked exactly when the recorded artifact
exists and has non-zero size; when it is missing or empty, the session
reports failure and the pipeline is never invoked. -/
theorem C8 (ex : Bool) (size : Nat) :
    (CaptureEvent.pipelineRun ∈ capture_pass ex size ↔ (ex = true ∧ 0 < size)) ∧
    (¬(ex = true ∧ 0 < size) →
      CaptureEvent.pipelineRun ∉ capture_pass ex size ∧
      CaptureEvent.validationFailed ∈ capture_pass ex size) := by
  unfold capture_pass
  by_cases h : (ex && decide (0 < size)) = true
  · have hp : ex = true ∧ 0 < size := by
      rw [Bool.and_eq_true] at h
      exact ⟨h.1, of_decide_eq_true h.2⟩
    rw [if_pos h]
    exact ⟨⟨fun _ => hp, fun _ => by simp⟩, fun hn => absurd hp hn⟩
  · have hp : ¬(ex = true ∧ 0 < size) := by
      rintro ⟨hx, hs⟩
      exact h (by rw [hx]; simpa using hs)
    rw [if_neg h]
    exact ⟨⟨fun hmem => by simp at hmem, fun hc => absurd hc hp⟩,
      fun _ => ⟨by simp, by simp⟩⟩

/-- Witness for C8: an empty artifact never reaches the pipeline. -/
theorem C8_witness :
    CaptureEvent.pipelineRun ∉ capture_pass true 0 ∧
    CaptureEvent.validationFailed ∈ capture_pass true 0 :=
  (C8 true 0).2 (by decide)

/-- C6: an iteration with an unhandled failure produces exactly one
300-second (5-minute) backoff event, after which the loop continues with
the remaining iterations; a failed iteration never terminates the loop —
if the remaining iterations do not stop the loop, neither does a failure
prepended to them. -/
theorem C6 (rest : List IterResult) :
    run_scheduler (IterResult.failed :: rest) =
      SchedEvent.errorBackoff 300 :: run_scheduler rest ∧
    (run_scheduler (IterResult.failed :: rest)).count (SchedEvent.errorBackoff 300) =
      (run_scheduler rest).count (SchedEvent.errorBackoff 300) + 1 ∧
    (SchedEvent.stopped ∉ run_scheduler rest →
      SchedEvent.stopped ∉ run_scheduler (IterResult.failed :: rest)) := by
  refine ⟨rfl, ?_, ?_⟩
  · simp [run_scheduler, List.count_cons]
  · intro h hmem
    rw [run_scheduler] at hmem
    rcases List.mem_cons.mp hmem with he | he
    · simp at he
    · exact h he

/-- Witness for C6: one failed iteration before a capture yields exactly
one backoff followed by the capture, and the loop does not stop. -/
theorem C6_witness :
    run_scheduler [IterResult.failed, IterResult.captured] =
      [SchedEvent.errorBackoff 300, SchedEvent.captureRun] ∧
    SchedEvent.stopped ∉ run_scheduler [IterResult.failed, IterResult.captured] :=
  ⟨by decide, (C6 [IterResult.captured]).2.2 (by decide)⟩
